import Mathlib

/-!
Shallow embedding of the request-processing pipeline and dependency-resolution
container described by this repository (a NestJS tutorial plus a Prisma
bootstrap file).  The concrete snippets in src/doc_tutorials/overview.md
(JoiValidationPipe, RolesGuard, DefaultValuePipe usage, guard semantics,
status-code defaulting, exception filters) and src/src/main.ts (bootstrap)
are translated directly; the framework core that executes them (pipeline
state machine, provider registry, metadata store) is not part of the
repository's sources and is modelled from the specification's words.
-/

namespace TTRL

/-- JSON-ish runtime values flowing through the pipeline.  `vAbsent` stands
for a missing query/path value (JavaScript `undefined`). -/
inductive Value where
  | vStr (s : String)
  | vNum (n : Int)
  | vBool (b : Bool)
  | vNull
  | vArr (elems : List Value)
  | vObj (fields : List (String × Value))
  | vAbsent

/-- Thrown conditions (exceptions): a type tag used by `@Catch` matching, a
message and an HTTP status (e.g. BadRequestException carries 400). -/
structure Exc where
  ty : String
  message : String
  status : Nat

/-- The BadRequestException thrown by validation pipes in the source:
`throw new BadRequestException('Validation failed')`. -/
def badRequestExc : Exc :=
  { ty := "BadRequestException", message := "Validation failed", status := 400 }

/-- HTTP method of the route; only POST is distinguished by the core
(status-code defaulting). -/
inductive HttpMethod where
  | get
  | post
  | put
  | del
  | patch
deriving DecidableEq

/-- The authenticated principal attached to the request (`request.user`). -/
structure UserInfo where
  roles : List String

/-- Inbound request descriptor: method, query/path key-value pairs, body and
the optional attached user. -/
structure Req where
  method : HttpMethod
  query : List (String × String)
  pathParams : List (String × String)
  reqBody : Value
  user : Option UserInfo

/-- String lookup in a query/path key-value list. -/
def lookupStr : List (String × String) → String → Option String
  | [], _ => none
  | (k, v) :: rest, key => if k = key then some v else lookupStr rest key

/-- A pipe transforms one handler argument or fails with an exception
(`PipeTransform.transform`). -/
abbrev Pipe : Type := Value → Except Exc Value

/-- A guard yields a boolean admission decision for the request and may also
raise (`CanActivate.canActivate`). -/
abbrev Guard : Type := Req → Except Exc Bool

/-- An interceptor wraps the handler call: it may short-circuit with its own
response before the inner stages run, and it may map the candidate response
on the way out (`intercept` with RxJS `map`). -/
structure Interceptor where
  shortCircuit : Req → Option Value
  mapResp : Value → Value

/-- Argument sources of `ArgumentMetadata.type` in the source:
'body' | 'query' | 'param' | 'custom'. -/
inductive ArgSource where
  | body
  | query
  | pathParam
  | custom
deriving DecidableEq

/-- A declared handler parameter: its source, the key used for extraction and
its ordered pipe chain. -/
structure Param where
  source : ArgSource
  key : String
  pipes : List Pipe

/-- Raw argument extraction before any pipe runs.  A missing query or path
value extracts as `vAbsent`; a custom decorator extracts from the attached
user (`createParamDecorator` returning `request.user`). -/
def extractArg (req : Req) (p : Param) : Value :=
  match p.source with
  | .body => req.reqBody
  | .query =>
    match lookupStr req.query p.key with
    | some s => .vStr s
    | none => .vAbsent
  | .pathParam =>
    match lookupStr req.pathParams p.key with
    | some s => .vStr s
    | none => .vAbsent
  | .custom =>
    match req.user with
    | some u => .vObj [("roles", .vArr (u.roles.map .vStr))]
    | none => .vNull

/-- A route handler descriptor: parameters in declared order, the body
invoked with the piped arguments, the HTTP method, and the optional
`@HttpCode(...)` metadata. -/
structure HandlerDescriptor where
  params : List Param
  handlerBody : List Value → Except Exc Value
  method : HttpMethod
  statusMeta : Option Nat

/-- An exception filter entry: `@Catch(tys)` matches listed types, a bare
`@Catch()` (matchTypes = none) matches everything. -/
structure FilterEntry where
  matchTypes : Option (List String)
  respond : Exc → Value

/-- Everything the executor needs for one request: guards, interceptors,
the resolved handler and the declared exception filters, each in declared
order. -/
structure PipelineCfg where
  guards : List Guard
  interceptors : List Interceptor
  handler : HandlerDescriptor
  filters : List FilterEntry

/-- Serialized response body: objects/arrays are serialized as structured
JSON data, bare primitives are sent as-is. -/
inductive BodyOut where
  | asIs (v : Value)
  | jsonData (v : Value)

/-- Outbound response descriptor: status plus body. -/
structure Response where
  status : Nat
  respBody : BodyOut

/-- Serialization split from the source: a returned object or array is
serialized to JSON; a primitive (string/number/boolean) is sent as-is. -/
def serializeBody : Value → BodyOut
  | .vStr s => .asIs (.vStr s)
  | .vNum n => .asIs (.vNum n)
  | .vBool b => .asIs (.vBool b)
  | v => .jsonData v

/-- Status defaulting from the source: the declared `@HttpCode` metadata if
present, otherwise 200, except 201 for POST handlers. -/
def statusOf (h : HandlerDescriptor) : Nat :=
  h.statusMeta.getD (if h.method = .post then 201 else 200)

/-- Build the success response for a candidate value. -/
def mkResponse (h : HandlerDescriptor) (v : Value) : Response :=
  { status := statusOf h, respBody := serializeBody v }

/-- The 403 Forbidden-class denial response produced when a guard yields
false. -/
def forbiddenResponse : Response :=
  { status := 403
    respBody := .jsonData (.vObj
      [("statusCode", .vNum 403), ("message", .vStr "Forbidden")]) }

/-- The generic 500-class response of the process-wide default filter; it
does not depend on the exception, so no internal details leak. -/
def genericServerErrorResponse : Response :=
  { status := 500
    respBody := .jsonData (.vObj
      [("statusCode", .vNum 500), ("message", .vStr "Internal server error")]) }

/-- Outcome of evaluating the applicable guards in order. -/
inductive GuardOutcome where
  | allowed
  | denied
  | raised (e : Exc)

/-- Modelled from the spec: guards are evaluated in order; the first guard to
yield `false` denies the request, the first to raise sends the exception to
filtering, and the request proceeds only if every guard yields `true`. -/
def evalGuards : List Guard → Req → GuardOutcome
  | [], _ => .allowed
  | gd :: gds, req =>
    match gd req with
    | .error e => .raised e
    | .ok false => .denied
    | .ok true => evalGuards gds req

/-- Modelled from the spec: the first pre-interceptor that decides not to
invoke the remainder of the chain produces its own response value
(caching-style short-circuit). -/
def firstShort : List Interceptor → Req → Option Value
  | [], _ => none
  | i :: is, req =>
    match i.shortCircuit req with
    | some v => some v
    | none => firstShort is req

/-- Run one parameter's pipe chain left to right, stopping at the first
failure. -/
def runChain : List Pipe → Value → Except Exc Value
  | [], v => .ok v
  | p :: ps, v =>
    match p v with
    | .error e => .error e
    | .ok v2 => runChain ps v2

/-- Modelled from the spec: pipe each handler parameter in declared order;
the first pipe failure aborts, so later parameters are not piped. -/
def pipeParams (req : Req) : List Param → Except Exc (List Value)
  | [] => .ok []
  | p :: ps =>
    match runChain p.pipes (extractArg req p) with
    | .error e => .error e
    | .ok v =>
      match pipeParams req ps with
      | .error e => .error e
      | .ok vs => .ok (v :: vs)

/-- Response mapping of post-interception: with interceptors nested in entry
order, the innermost (last-entered) map is applied to the handler value
first and the outermost (first-entered) last. -/
def postIntercept : List Interceptor → Value → Value
  | [], v => v
  | i :: is, v => i.mapResp (postIntercept is v)

/-- Applying interceptor response maps head-first in list order; used to
state that `postIntercept` works in the exact reverse of entry order. -/
def applyInOrder : List Interceptor → Value → Value
  | [], v => v
  | i :: is, v => applyInOrder is (i.mapResp v)

/-- Does a filter entry match the exception?  A bare `@Catch()` matches
every exception; `@Catch(t1, …, tn)` matches the listed types only. -/
def matchesFilter (f : FilterEntry) (e : Exc) : Bool :=
  match f.matchTypes with
  | none => true
  | some ts => ts.contains e.ty

/-- Modelled from the spec: the first matching filter (declared order,
explicit matchers before any wildcard the application declared) answers the
exception; if no filter matches, the process-wide default filter produces
the generic 500-class response. -/
def runFilters : List FilterEntry → Exc → Response
  | [], _ => genericServerErrorResponse
  | f :: fs, e =>
    if matchesFilter f e then { status := e.status, respBody := .jsonData (f.respond e) }
    else runFilters fs e

/-- Pipeline executor states.  `responding` is terminal; `filtering` is the
parallel failure state reachable from any stage. -/
inductive Stage where
  | guarding
  | preIntercepting
  | piping
  | handling (args : List Value)
  | postIntercepting (v : Value)
  | filtering (e : Exc)
  | responding (r : Response)

/-- Modelled from the spec: one transition of the pipeline state machine
Guarding → PreIntercepting → PipingArguments → Handling → PostIntercepting →
Responding, with Filtering reachable on denial-free failure and `responding`
absorbing. -/
def step (cfg : PipelineCfg) (req : Req) : Stage → Stage
  | .guarding =>
    match evalGuards cfg.guards req with
    | .allowed => .preIntercepting
    | .denied => .responding forbiddenResponse
    | .raised e => .filtering e
  | .preIntercepting =>
    match firstShort cfg.interceptors req with
    | some v => .responding (mkResponse cfg.handler v)
    | none => .piping
  | .piping =>
    match pipeParams req cfg.handler.params with
    | .ok args => .handling args
    | .error e => .filtering e
  | .handling args =>
    match cfg.handler.handlerBody args with
    | .ok v => .postIntercepting v
    | .error e => .filtering e
  | .postIntercepting v =>
    .responding (mkResponse cfg.handler (postIntercept cfg.interceptors v))
  | .filtering e => .responding (runFilters cfg.filters e)
  | .responding r => .responding r

/-- Iterate the state machine `n` steps. -/
def stepN (cfg : PipelineCfg) (req : Req) : Nat → Stage → Stage
  | 0, s => s
  | n + 1, s => stepN cfg req n (step cfg req s)

/-- Run a request to completion.  Six steps always reach the terminal
`responding` state from `guarding` (proved below); the fallback branch is
never taken. -/
def execute (cfg : PipelineCfg) (req : Req) : Response :=
  match stepN cfg req 6 .guarding with
  | .responding r => r
  | _ => genericServerErrorResponse

/-- Parse a non-empty decimal digit string. -/
def parseDecAux : List Char → Nat → Option Nat
  | [], acc => some acc
  | c :: cs, acc =>
    if c.isDigit then parseDecAux cs (acc * 10 + (c.toNat - 48)) else none

/-- Decimal parser used by the integer-parsing pipe. -/
def parseDec (s : String) : Option Nat :=
  match s.toList with
  | [] => none
  | cs => parseDecAux cs 0

/-- The framework's `DefaultValuePipe`: it substitutes the configured default
for a missing (`vAbsent`) value and passes every present value through
unchanged. -/
def DefaultValuePipe (d : Value) : Pipe :=
  fun v =>
    match v with
    | .vAbsent => .ok d
    | _ => .ok v

/-- The framework's `ParseIntPipe`: a decimal string parses to its number, a
number passes through, anything else fails with a 400 validation
exception. -/
def ParseIntPipe : Pipe :=
  fun v =>
    match v with
    | .vStr s =>
      match parseDec s with
      | some n => .ok (.vNum n)
      | none => .error badRequestExc
    | .vNum n => .ok (.vNum n)
    | _ => .error badRequestExc

/-- `JoiValidationPipe.transform` from the source: if the schema reports an
error, throw `BadRequestException('Validation failed')`; otherwise return
the value unchanged. -/
def JoiValidationPipe (schemaOk : Value → Bool) : Pipe :=
  fun v => if schemaOk v then .ok v else .error badRequestExc

/-- The `@Query('page', new DefaultValuePipe(0), ParseIntPipe)` parameter of
the source's `findAll` example. -/
def pageParam (key : String) : Param :=
  { source := .query, key := key
    pipes := [DefaultValuePipe (.vNum 0), ParseIntPipe] }

/-! ### Metadata store and the roles guard -/

/-- Metadata subjects are handler/class identities. -/
abbrev Subject : Type := Nat

/-- Modelled from the spec: the process-wide Metadata Store maps
(subject, key) pairs, written once by `@SetMetadata` at declaration time,
to values (here: the role lists used by `Roles`/`RolesGuard`). -/
abbrev MetaStore : Type := List ((Nat × String) × List String)

/-- `set(subject, key, value)`: declaration-time registration. -/
def metaSet (store : MetaStore) (subj : Nat) (key : String)
    (v : List String) : MetaStore :=
  ((subj, key), v) :: store

/-- `get(subject, key) -> value | absent`: no error on a missing key, the
caller sees `none`. -/
def metaGet : MetaStore → Nat → String → Option (List String)
  | [], _, _ => none
  | (sk, v) :: rest, subj, key =>
    if sk = (subj, key) then some v else metaGet rest subj key

/-- `matchRoles` of the roles guard: the user holds at least one of the
required roles. -/
def matchRoles (required userRoles : List String) : Bool :=
  required.any (fun r => userRoles.contains r)

/-- Roles of `request.user`, empty when no user is attached. -/
def userRoles (req : Req) : List String :=
  match req.user with
  | some u => u.roles
  | none => []

/-- `RolesGuard.canActivate` from the source: read the 'roles' metadata of
the handler; if none is declared, allow; otherwise match the user's roles
against it. -/
def rolesGuardCanActivate (store : MetaStore) (subj : Nat) : Guard :=
  fun req =>
    .ok (match metaGet store subj "roles" with
      | none => true
      | some required => matchRoles required (userRoles req))

/-! ### Bootstrap (src/src/main.ts) -/

/-- Observable effects of the bootstrap sequence in src/src/main.ts. -/
inductive BootEvent where
  | createApp (moduleName : String)
  | listen (port : Nat)
  | appGet (providerName : String)
  | enableHooks
deriving DecidableEq

/-- `await NestFactory.create(AppModule)`. -/
def nestFactoryCreate (moduleName : String) (log : List BootEvent) :
    List BootEvent :=
  log ++ [.createApp moduleName]

/-- `await app.listen(3000)`. -/
def appListen (port : Nat) (log : List BootEvent) : List BootEvent :=
  log ++ [.listen port]

/-- `app.get(PrismaService)`. -/
def appGetService (providerName : String) (log : List BootEvent) :
    List BootEvent :=
  log ++ [.appGet providerName]

/-- `await prismaService.enableShutdownHooks(app)`. -/
def enableShutdownHooks (log : List BootEvent) : List BootEvent :=
  log ++ [.enableHooks]

/-- The `bootstrap` function of src/src/main.ts: each call is awaited before
the next begins, so the effect trace is their sequential composition. -/
def bootstrap : List BootEvent :=
  enableShutdownHooks (appGetService "PrismaService"
    (appListen 3000 (nestFactoryCreate "AppModule" [])))

/-! ### Provider registry -/

/-- Provider identity. -/
abbrev Token : Type := Nat

/-- Provider lifetimes: singleton (process lifetime) or per-request. -/
inductive Lifetime where
  | singleton
  | perRequest
deriving DecidableEq

/-- Modelled from the spec: a provider descriptor holds its token, its
ordered dependency tokens and its lifetime.  The construction function is
represented abstractly: constructing a provider packages its token with its
resolved dependency instances. -/
structure ProviderDescriptor where
  token : Nat
  deps : List Nat
  lifetime : Lifetime
deriving DecidableEq

/-- A provider registry: descriptors in declaration order. -/
abbrev Registry : Type := List ProviderDescriptor

/-- A constructed instance: the token plus the instances injected into it. -/
inductive Instance where
  | make (tok : Nat) (injected : List Instance)

/-- Registry state: the memoization cache (an association list from token to
instance) and the construction log, one entry per run of a construction
function, in order. -/
structure RegState where
  cache : List (Nat × Instance)
  constructionLog : List Nat

/-- The state before any resolution. -/
def emptyRegState : RegState := { cache := [], constructionLog := [] }

/-- Cache lookup by token. -/
def lookupInst : List (Nat × Instance) → Nat → Option Instance
  | [], _ => none
  | (t, i) :: rest, tok => if t = tok then some i else lookupInst rest tok

/-- The descriptor a token resolves through: the first declared descriptor
with that token. -/
def findDescriptor (g : Registry) (tok : Nat) : Option ProviderDescriptor :=
  g.find? (fun d => d.token = tok)

/-- Lifetime of a declared token. -/
def lifetimeOf (g : Registry) (tok : Nat) : Option Lifetime :=
  (findDescriptor g tok).map (fun d => d.lifetime)

/-- Resolution errors of the registry (startup-time, fatal). -/
inductive ResolveError where
  | unresolvedDependency
  | dependencyCycle
  | outOfFuel
deriving DecidableEq

/-- Modelled from the spec: the Provider Registry's recursive resolution
walk.  For each token in turn: a token already on the visiting set is a
dependency cycle; a cached token is returned memoized without running any
construction function; an undeclared token is an unresolved dependency;
otherwise the dependencies are resolved depth-first with the token added to
the visiting set, the instance is constructed exactly then (appending to the
construction log) and memoized.  Fuel bounds the recursion; `fuelFor` below
is always sufficient. -/
def resolveList (g : Registry) :
    Nat → List Nat → RegState → List Nat →
    RegState × Except ResolveError (List Instance)
  | _, _, st, [] => (st, .ok [])
  | 0, _, st, _ :: _ => (st, .error .outOfFuel)
  | fuel + 1, visiting, st, tok :: toks =>
    if tok ∈ visiting then (st, .error .dependencyCycle)
    else
      match lookupInst st.cache tok with
      | some inst =>
        match resolveList g fuel visiting st toks with
        | (st2, .error e) => (st2, .error e)
        | (st2, .ok insts) => (st2, .ok (inst :: insts))
      | none =>
        match findDescriptor g tok with
        | none => (st, .error .unresolvedDependency)
        | some d =>
          match resolveList g fuel (tok :: visiting) st d.deps with
          | (st1, .error e) => (st1, .error e)
          | (st1, .ok depInsts) =>
            let inst := Instance.make tok depInsts
            let st2 : RegState :=
              { cache := (tok, inst) :: st1.cache
                constructionLog := st1.constructionLog ++ [tok] }
            match resolveList g fuel visiting st2 toks with
            | (st3, .error e) => (st3, .error e)
            | (st3, .ok insts) => (st3, .ok (inst :: insts))

/-- Largest declared dependency-list length. -/
def maxDeps (g : Registry) : Nat :=
  (g.map (fun d => d.deps.length)).foldr Nat.max 0

/-- The distinct declared tokens. -/
def declaredTokens (g : Registry) : List Nat :=
  (g.map (fun d => d.token)).dedup

/-- Fuel sufficient for any resolution over `g` (proved below). -/
def fuelFor (g : Registry) : Nat :=
  (declaredTokens g).length * (maxDeps g + 1) + 1

/-- `resolve(token)`: the registry's entry point for one token. -/
def resolve (g : Registry) (st : RegState) (tok : Nat) :
    RegState × Except ResolveError Instance :=
  match resolveList g (fuelFor g) [] st [tok] with
  | (st1, .error e) => (st1, .error e)
  | (st1, .ok (inst :: _)) => (st1, .ok inst)
  | (st1, .ok []) => (st1, .error .outOfFuel)

/-- Modelled from the spec: a fresh RequestContext discards per-request
instances; singleton instances stay memoized for the process lifetime. -/
def newRequest (g : Registry) (st : RegState) : RegState :=
  { st with
    cache := st.cache.filter (fun p => lifetimeOf g p.1 = some .singleton) }

/-- The construction-once invariant: every declared singleton token's
construction function has run exactly once if the token is memoized and
never otherwise. -/
def GoodState (g : Registry) (st : RegState) : Prop :=
  ∀ d ∈ g, lifetimeOf g d.token = some .singleton →
    st.constructionLog.count d.token =
      (if (lookupInst st.cache d.token).isSome then 1 else 0)

/-- Dependency edge of the effective descriptor graph: `b` is a declared
dependency of the descriptor `a` resolves through. -/
def EdgeTo (g : Registry) (a b : Nat) : Prop :=
  ∃ d, findDescriptor g a = some d ∧ b ∈ d.deps

/-- Reachability along dependency edges (reflexive-transitive). -/
inductive Reaches (g : Registry) : Nat → Nat → Prop
  | refl (a : Nat) : Reaches g a a
  | head {a b c : Nat} : EdgeTo g a b → Reaches g b c → Reaches g a c

/-- A token lies on a dependency cycle: one of its declared dependencies
reaches back to it. -/
def OnCycle (g : Registry) (tok : Nat) : Prop :=
  ∃ d, findDescriptor g tok = some d ∧ ∃ b ∈ d.deps, Reaches g b tok

/-- Every declared dependency token is itself declared. -/
def ClosedRegistry (g : Registry) : Prop :=
  ∀ d ∈ g, ∀ t ∈ d.deps, (findDescriptor g t).isSome

/-- The cache is dependency-closed: every declared dependency of a memoized
token is memoized too. -/
def CacheClosed (g : Registry) (st : RegState) : Prop :=
  ∀ a i, lookupInst st.cache a = some i →
    ∀ b, EdgeTo g a b → (lookupInst st.cache b).isSome

/-- Number of declared tokens not yet on the visiting set; the measure that
shows `fuelFor` suffices. -/
def availCount (g : Registry) (visiting : List Nat) : Nat :=
  ((declaredTokens g).filter (fun t => decide (t ∉ visiting))).length

/-- Did a pipe chain succeed? -/
def isOkE : Except Exc Value → Bool
  | .ok _ => true
  | .error _ => false

/-! ### Concrete fixtures used by the witness theorems -/

/-- A plain GET request with no query, path, body or user. -/
def wReq : Req :=
  { method := .get, query := [], pathParams := [], reqBody := .vNull
    user := none }

/-- A parameterless handler returning an empty array. -/
def wHandler : HandlerDescriptor :=
  { params := [], handlerBody := fun _ => .ok (.vArr []), method := .get
    statusMeta := none }

/-- A guard that returns false for every request. -/
def denyGuard : Guard := fun _ => .ok false

/-- Pipeline with one denying guard. -/
def wCfgDeny : PipelineCfg :=
  { guards := [denyGuard], interceptors := [], handler := wHandler
    filters := [] }

/-- A parameter with no pipes, bound to the request body. -/
def plainParam : Param := { source := .body, key := "", pipes := [] }

/-- A parameter whose validation pipe always rejects. -/
def rejectParam : Param :=
  { source := .body, key := ""
    pipes := [JoiValidationPipe (fun _ => false)] }

/-- Handler with three parameters whose second one fails validation. -/
def wHandlerPipes : HandlerDescriptor :=
  { params := [plainParam, rejectParam, plainParam]
    handlerBody := fun _ => .ok (.vArr []), method := .get
    statusMeta := none }

/-- Pipeline for the pipe-failure witness. -/
def wCfgPipes : PipelineCfg :=
  { guards := [], interceptors := [], handler := wHandlerPipes
    filters := [] }

/-- A filter that only catches HttpException. -/
def httpOnlyFilter : FilterEntry :=
  { matchTypes := some ["HttpException"], respond := fun e => .vStr e.message }

/-- Pipeline declaring only the HttpException filter. -/
def wCfgFiltered : PipelineCfg :=
  { guards := [], interceptors := [], handler := wHandler
    filters := [httpOnlyFilter] }

/-- An exception no declared filter of `wCfgFiltered` matches. -/
def unmatchedExc : Exc :=
  { ty := "TypeError", message := "boom", status := 500 }

/-- A parameterless POST handler without `@HttpCode` metadata. -/
def wPostHandler : HandlerDescriptor :=
  { params := [], handlerBody := fun _ => .ok (.vObj []), method := .post
    statusMeta := none }

/-- Pipeline for the status-defaulting witness. -/
def wCfgPost : PipelineCfg :=
  { guards := [], interceptors := [], handler := wPostHandler, filters := [] }

/-- An interceptor that wraps the response value under a tag and never
short-circuits. -/
def wrapInterceptor (tag : String) : Interceptor :=
  { shortCircuit := fun _ => none
    mapResp := fun v => .vObj [(tag, v)] }

/-- Pipeline with two response-mapping interceptors entered in order A, B. -/
def wCfgWrap : PipelineCfg :=
  { guards := []
    interceptors := [wrapInterceptor "A", wrapInterceptor "B"]
    handler := wHandler, filters := [] }

/-- A metadata store holding one roles entry for subject 1. -/
def wStore : MetaStore := metaSet [] 1 "other" ["admin"]

/-- One singleton provider without dependencies. -/
def wRegistrySingle : Registry :=
  [{ token := 0, deps := [], lifetime := .singleton }]

/-- State after the first resolution of token 0 from the empty state. -/
def wStateAfter : RegState := (resolve wRegistrySingle emptyRegState 0).1

/-- The instance constructed for token 0. -/
def wInstance : Instance := .make 0 []

/-- Two singleton providers depending on each other: a dependency cycle. -/
def wRegistryCycle : Registry :=
  [{ token := 0, deps := [1], lifetime := .singleton },
   { token := 1, deps := [0], lifetime := .singleton }]

/-! ## Theorems -/

/-- `responding` is absorbing: once terminal, further steps change nothing. -/
theorem stepN_responding (cfg : PipelineCfg) (req : Req) (n : Nat)
    (r : Response) : stepN cfg req n (.responding r) = .responding r := by
  induction n with
  | zero => rfl
  | succ n ih => exact ih

/-- Iteration splits on addition. -/
theorem stepN_add (cfg : PipelineCfg) (req : Req) (m n : Nat) (s : Stage) :
    stepN cfg req (m + n) s = stepN cfg req m (stepN cfg req n s) := by
  induction n generalizing s with
  | zero => rfl
  | succ n ih => exact ih (step cfg req s)

/-- Reaching the terminal state by step `k ≤ 6` fixes the sixth state. -/
theorem stepN_six_of (cfg : PipelineCfg) (req : Req) (k : Nat) (hk : k ≤ 6)
    (r : Response) (h : stepN cfg req k .guarding = .responding r) :
    stepN cfg req 6 .guarding = .responding r := by
  obtain ⟨m, hm⟩ : ∃ m, 6 = m + k := ⟨6 - k, by omega⟩
  rw [hm, stepN_add, h, stepN_responding]

/-- If no guard raises and some guard returns false, ordered guard
evaluation denies. -/
theorem evalGuards_denied (gds : List Guard) (req : Req)
    (hnr : ∀ gd ∈ gds, ∀ e, gd req ≠ Except.error e)
    (hf : ∃ gd ∈ gds, gd req = Except.ok false) :
    evalGuards gds req = .denied := by
  induction gds with
  | nil => obtain ⟨gd, h, _⟩ := hf; cases h
  | cons g1 rest ih =>
    obtain ⟨gd, hmem, hfalse⟩ := hf
    rcases List.mem_cons.mp hmem with heq | hmem2
    · subst heq
      simp [evalGuards, hfalse]
    · cases hg1 : g1 req with
      | error e => exact absurd hg1 (hnr g1 (List.mem_cons_self _ _) e)
      | ok b =>
        cases b with
        | false => simp [evalGuards, hg1]
        | true =>
          simp only [evalGuards, hg1]
          exact ih (fun gd2 h2 e => hnr gd2 (List.mem_cons_of_mem _ h2) e)
            ⟨gd, hmem2, hfalse⟩

/-- Claim C1: if every applicable guard returns a boolean on this request
(none raises) and some guard returns false, the pipeline transitions from
Guarding directly to Responding with the 403 Forbidden-class denial
response; the client receives that response and the pre-interceptor,
piping, handler and post-interceptor stages are never entered. -/
theorem c1_guard_denial_short_circuits (cfg : PipelineCfg) (req : Req)
    (hnr : ∀ gd ∈ cfg.guards, ∀ e, gd req ≠ Except.error e)
    (hf : ∃ gd ∈ cfg.guards, gd req = Except.ok false) :
    step cfg req .guarding = .responding forbiddenResponse
    ∧ forbiddenResponse.status = 403
    ∧ execute cfg req = forbiddenResponse
    ∧ ∀ n : Nat,
        stepN cfg req n .guarding ≠ .preIntercepting
        ∧ stepN cfg req n .guarding ≠ .piping
        ∧ (∀ args, stepN cfg req n .guarding ≠ .handling args)
        ∧ (∀ v, stepN cfg req n .guarding ≠ .postIntercepting v) := by
  have hd := evalGuards_denied cfg.guards req hnr hf
  have hstep : step cfg req .guarding = .responding forbiddenResponse := by
    simp [step, hd]
  have habs : ∀ m : Nat,
      stepN cfg req (m + 1) .guarding = .responding forbiddenResponse := by
    intro m
    show stepN cfg req m (step cfg req .guarding) = _
    rw [hstep]; exact stepN_responding _ _ m _
  refine ⟨hstep, rfl, ?_, ?_⟩
  · simp [execute, habs 5]
  · intro n
    cases n with
    | zero =>
      exact ⟨by simp [stepN], by simp [stepN],
        fun args => by simp [stepN], fun v => by simp [stepN]⟩
    | succ m =>
      rw [habs m]
      exact ⟨by simp, by simp, fun args => by simp, fun v => by simp⟩

/-- Witness for C1: a concrete pipeline whose only guard returns false. -/
theorem c1_witness :
    step wCfgDeny wReq .guarding = .responding forbiddenResponse
    ∧ execute wCfgDeny wReq = forbiddenResponse :=
  have h := c1_guard_denial_short_circuits wCfgDeny wReq
    (by
      intro gd hgd e
      simp only [wCfgDeny, List.mem_singleton] at hgd
      subst hgd
      simp [denyGuard])
    ⟨denyGuard, by simp [wCfgDeny], rfl⟩
  ⟨h.1, h.2.2.1⟩

/-- The first failing parameter determines the piping outcome, and the
parameters after it are never consulted. -/
theorem pipeParams_first_failure (req : Req) (pre : List Param) (p : Param)
    (post : List Param) (e : Exc)
    (hpre : ∀ q ∈ pre, isOkE (runChain q.pipes (extractArg req q)) = true)
    (hfail : runChain p.pipes (extractArg req p) = .error e) :
    pipeParams req (pre ++ p :: post) = .error e
    ∧ pipeParams req (pre ++ p :: post) = pipeParams req (pre ++ [p]) := by
  induction pre with
  | nil => simp [pipeParams, hfail]
  | cons q rest ih =>
    have hq := hpre q (List.mem_cons_self _ _)
    cases hrc : runChain q.pipes (extractArg req q) with
    | error e2 => rw [hrc] at hq; simp [isOkE] at hq
    | ok v =>
      obtain ⟨ih1, ih2⟩ := ih (fun q2 h2 => hpre q2 (List.mem_cons_of_mem _ h2))
      constructor
      · simp [pipeParams, hrc, ih1]
      · simp [pipeParams, hrc, ih1, ih2.symm]

/-- Claim C2: when the request reaches the piping stage and the pipe chain
of one parameter fails while every earlier parameter piped successfully,
the executor transitions from PipingArguments immediately to Filtering: the
piping outcome ignores all later parameters, the handler is never invoked,
and the client response is produced by the Exception Filter Chain. -/
theorem c2_pipe_failure_short_circuits (cfg : PipelineCfg) (req : Req)
    (pre : List Param) (p : Param) (post : List Param) (e : Exc)
    (hparams : cfg.handler.params = pre ++ p :: post)
    (hguards : evalGuards cfg.guards req = .allowed)
    (hshort : firstShort cfg.interceptors req = none)
    (hpre : ∀ q ∈ pre, isOkE (runChain q.pipes (extractArg req q)) = true)
    (hfail : runChain p.pipes (extractArg req p) = .error e) :
    pipeParams req cfg.handler.params = .error e
    ∧ pipeParams req cfg.handler.params = pipeParams req (pre ++ [p])
    ∧ step cfg req .piping = .filtering e
    ∧ execute cfg req = runFilters cfg.filters e
    ∧ ∀ (n : Nat) (args : List Value),
        stepN cfg req n .guarding ≠ .handling args := by
  obtain ⟨h1, h2⟩ := pipeParams_first_failure req pre p post e hpre hfail
  have hp1 : pipeParams req cfg.handler.params = .error e := by
    rw [hparams]; exact h1
  have hp2 : pipeParams req cfg.handler.params = pipeParams req (pre ++ [p]) := by
    rw [hparams]; exact h2
  have hstepPipe : step cfg req .piping = .filtering e := by
    simp [step, hp1]
  have t1 : step cfg req .guarding = .preIntercepting := by
    simp [step, hguards]
  have t2 : step cfg req .preIntercepting = .piping := by
    simp [step, hshort]
  have e1 : stepN cfg req 1 .guarding = .preIntercepting := t1
  have e2 : stepN cfg req 2 .guarding = .piping := by
    show stepN cfg req 1 (step cfg req .guarding) = _
    rw [t1]; exact t2
  have e3 : stepN cfg req 3 .guarding = .filtering e := by
    show stepN cfg req 1 (stepN cfg req 2 .guarding) = _
    rw [e2]; exact hstepPipe
  have e4 : stepN cfg req 4 .guarding
      = .responding (runFilters cfg.filters e) := by
    show stepN cfg req 1 (stepN cfg req 3 .guarding) = _
    rw [e3]; rfl
  have e6 := stepN_six_of cfg req 4 (by omega) _ e4
  refine ⟨hp1, hp2, hstepPipe, by simp [execute, e6], ?_⟩
  intro n args
  rcases n with _ | _ | _ | _ | m
  · simp [stepN]
  · rw [e1]; simp
  · rw [e2]; simp
  · rw [e3]; simp
  · have : stepN cfg req (m + 4) .guarding
        = .responding (runFilters cfg.filters e) := by
      rw [stepN_add, e4, stepN_responding]
    rw [this]; simp

/-- Witness for C2: three parameters whose second fails validation. -/
theorem c2_witness :
    pipeParams wReq wCfgPipes.handler.params = .error badRequestExc
    ∧ execute wCfgPipes wReq = runFilters wCfgPipes.filters badRequestExc :=
  have h := c2_pipe_failure_short_circuits wCfgPipes wReq
    [plainParam] rejectParam [plainParam] badRequestExc
    rfl rfl rfl
    (by
      intro q hq
      simp only [List.mem_singleton] at hq
      subst hq
      rfl)
    rfl
  ⟨h.1, h.2.2.2.1⟩

/-- Unmatched exceptions fall through to the process-wide default filter. -/
theorem runFilters_unmatched (fs : List FilterEntry) (e : Exc)
    (h : ∀ f ∈ fs, matchesFilter f e = false) :
    runFilters fs e = genericServerErrorResponse := by
  induction fs with
  | nil => rfl
  | cons f rest ih =>
    have hf := h f (List.mem_cons_self _ _)
    simp only [runFilters, hf, if_neg]
    exact ih (fun f2 h2 => h f2 (List.mem_cons_of_mem _ h2))

/-- The pipeline always terminates in the Responding state within six
steps, whatever the guards, interceptors, pipes and handler do. -/
theorem pipeline_total (cfg : PipelineCfg) (req : Req) :
    ∃ r : Response, stepN cfg req 6 .guarding = .responding r := by
  cases hg : evalGuards cfg.guards req with
  | denied =>
    refine ⟨forbiddenResponse, stepN_six_of cfg req 1 (by omega) _ ?_⟩
    show step cfg req .guarding = _
    simp [step, hg]
  | raised e =>
    refine ⟨runFilters cfg.filters e, stepN_six_of cfg req 2 (by omega) _ ?_⟩
    have t1 : step cfg req .guarding = .filtering e := by simp [step, hg]
    show stepN cfg req 1 (step cfg req .guarding) = _
    rw [t1]; rfl
  | allowed =>
    have t1 : step cfg req .guarding = .preIntercepting := by simp [step, hg]
    cases hs : firstShort cfg.interceptors req with
    | some v =>
      refine ⟨mkResponse cfg.handler v, stepN_six_of cfg req 2 (by omega) _ ?_⟩
      show stepN cfg req 1 (step cfg req .guarding) = _
      rw [t1]
      show step cfg req .preIntercepting = _
      simp [step, hs]
    | none =>
      have t2 : step cfg req .preIntercepting = .piping := by simp [step, hs]
      have e2 : stepN cfg req 2 .guarding = .piping := by
        show stepN cfg req 1 (step cfg req .guarding) = _
        rw [t1]; exact t2
      cases hp : pipeParams req cfg.handler.params with
      | error e =>
        refine ⟨runFilters cfg.filters e, stepN_six_of cfg req 4 (by omega) _ ?_⟩
        have e3 : stepN cfg req 3 .guarding = .filtering e := by
          show stepN cfg req 1 (stepN cfg req 2 .guarding) = _
          rw [e2]
          show step cfg req .piping = _
          simp [step, hp]
        show stepN cfg req 1 (stepN cfg req 3 .guarding) = _
        rw [e3]; rfl
      | ok args =>
        have e3 : stepN cfg req 3 .guarding = .handling args := by
          show stepN cfg req 1 (stepN cfg req 2 .guarding) = _
          rw [e2]
          show step cfg req .piping = _
          simp [step, hp]
        cases hb : cfg.handler.handlerBody args with
        | error e =>
          refine ⟨runFilters cfg.filters e, stepN_six_of cfg req 5 (by omega) _ ?_⟩
          have e4 : stepN cfg req 4 .guarding = .filtering e := by
            show stepN cfg req 1 (stepN cfg req 3 .guarding) = _
            rw [e3]
            show step cfg req (.handling args) = _
            simp [step, hb]
          show stepN cfg req 1 (stepN cfg req 4 .guarding) = _
          rw [e4]; rfl
        | ok v =>
          refine ⟨mkResponse cfg.handler (postIntercept cfg.interceptors v),
            stepN_six_of cfg req 5 (by omega) _ ?_⟩
          have e4 : stepN cfg req 4 .guarding = .postIntercepting v := by
            show stepN cfg req 1 (stepN cfg req 3 .guarding) = _
            rw [e3]
            show step cfg req (.handling args) = _
            simp [step, hb]
          show stepN cfg req 1 (stepN cfg req 4 .guarding) = _
          rw [e4]; rfl

/-- Claim C3: an exception matching no declared filter is answered by the
process-wide default filter with the generic 500-class response, and every
request terminates in the Responding state with some structured response —
never as an unhandled crash of the executor. -/
theorem c3_unmatched_exception_default (cfg : PipelineCfg) (req : Req)
    (e : Exc) (h : ∀ f ∈ cfg.filters, matchesFilter f e = false) :
    runFilters cfg.filters e = genericServerErrorResponse
    ∧ genericServerErrorResponse.status = 500
    ∧ ∃ r : Response,
        stepN cfg req 6 .guarding = .responding r ∧ execute cfg req = r := by
  refine ⟨runFilters_unmatched _ _ h, rfl, ?_⟩
  obtain ⟨r, hr⟩ := pipeline_total cfg req
  exact ⟨r, hr, by simp [execute, hr]⟩

/-- Witness for C3: a TypeError against a filter list catching only
HttpException. -/
theorem c3_witness :
    runFilters wCfgFiltered.filters unmatchedExc = genericServerErrorResponse
    ∧ execute wCfgFiltered wReq
        = mkResponse wHandler (Value.vArr []) :=
  have h := c3_unmatched_exception_default wCfgFiltered wReq unmatchedExc
    (by
      intro f hf
      simp only [wCfgFiltered, List.mem_singleton] at hf
      subst hf
      rfl)
  ⟨h.1, by
    obtain ⟨r, hr, he⟩ := h.2.2
    rw [he]
    have : stepN wCfgFiltered wReq 6 .guarding
        = .responding (mkResponse wHandler (Value.vArr [])) := by rfl
    rw [this] at hr
    cases hr
    rfl⟩

/-- Claim C6: a missing query value piped through
[DefaultValue(0), ParseInt] pipes successfully to the parsed default 0; the
argument delivered for that parameter is the number 0 and no
ValidationError is raised. -/
theorem c6_default_then_parse (req : Req) (key : String)
    (h : lookupStr req.query key = none) :
    runChain (pageParam key).pipes (extractArg req (pageParam key))
      = .ok (.vNum 0)
    ∧ pipeParams req [pageParam key] = .ok [.vNum 0] := by
  have hx : extractArg req (pageParam key) = .vAbsent := by
    simp [extractArg, pageParam, h]
  constructor
  · rw [hx]; rfl
  · simp only [pipeParams, hx]
    rfl

/-- Witness for C6: a request whose query lacks the 'page' key. -/
theorem c6_witness :
    runChain (pageParam "page").pipes (extractArg wReq (pageParam "page"))
      = .ok (.vNum 0)
    ∧ pipeParams wReq [pageParam "page"] = .ok [.vNum 0] :=
  c6_default_then_parse wReq "page" rfl

/-- On the success path the executor responds with the post-intercepted
handler value shaped by `mkResponse`. -/
theorem execute_success (cfg : PipelineCfg) (req : Req) (args : List Value)
    (v : Value)
    (hguards : evalGuards cfg.guards req = .allowed)
    (hshort : firstShort cfg.interceptors req = none)
    (hpipe : pipeParams req cfg.handler.params = .ok args)
    (hbody : cfg.handler.handlerBody args = .ok v) :
    execute cfg req
      = mkResponse cfg.handler (postIntercept cfg.interceptors v) := by
  have t1 : step cfg req .guarding = .preIntercepting := by simp [step, hguards]
  have e2 : stepN cfg req 2 .guarding = .piping := by
    show stepN cfg req 1 (step cfg req .guarding) = _
    rw [t1]
    show step cfg req .preIntercepting = _
    simp [step, hshort]
  have e3 : stepN cfg req 3 .guarding = .handling args := by
    show stepN cfg req 1 (stepN cfg req 2 .guarding) = _
    rw [e2]
    show step cfg req .piping = _
    simp [step, hpipe]
  have e4 : stepN cfg req 4 .guarding = .postIntercepting v := by
    show stepN cfg req 1 (stepN cfg req 3 .guarding) = _
    rw [e3]
    show step cfg req (.handling args) = _
    simp [step, hbody]
  have e5 : stepN cfg req 5 .guarding
      = .responding (mkResponse cfg.handler (postIntercept cfg.interceptors v)) := by
    show stepN cfg req 1 (stepN cfg req 4 .guarding) = _
    rw [e4]; rfl
  have e6 := stepN_six_of cfg req 5 (by omega) _ e5
  simp [execute, e6]

/-- Claim C7: a successfully handled request responds with the handler's
declared metadata status when present, otherwise 200, except 201 for POST
handlers. -/
theorem c7_status_defaulting (cfg : PipelineCfg) (req : Req)
    (args : List Value) (v : Value)
    (hguards : evalGuards cfg.guards req = .allowed)
    (hshort : firstShort cfg.interceptors req = none)
    (hpipe : pipeParams req cfg.handler.params = .ok args)
    (hbody : cfg.handler.handlerBody args = .ok v) :
    (execute cfg req).status
      = cfg.handler.statusMeta.getD
          (if cfg.handler.method = .post then 201 else 200) := by
  rw [execute_success cfg req args v hguards hshort hpipe hbody]
  rfl

/-- Witness for C7: a POST handler without `@HttpCode` responds 201. -/
theorem c7_witness : (execute wCfgPost wReq).status = 201 :=
  c7_status_defaulting wCfgPost wReq [] (.vObj []) rfl rfl rfl rfl

/-- Claim C8: a (subject, key) pair with no entry makes the Metadata Store
return the absent value (no error), and a roles guard reading absent
'roles' metadata allows the request. -/
theorem c8_missing_metadata (store : MetaStore) (subj : Nat) (key : String)
    (req : Req)
    (h : ∀ entry ∈ store, entry.1 ≠ (subj, key)) :
    metaGet store subj key = none
    ∧ (key = "roles" →
        rolesGuardCanActivate store subj req = Except.ok true) := by
  have hget : metaGet store subj key = none := by
    induction store with
    | nil => rfl
    | cons ent rest ih =>
      have hne := h ent (List.mem_cons_self _ _)
      obtain ⟨sk, v⟩ := ent
      simp only [metaGet, if_neg hne]
      exact ih (fun e2 h2 => h e2 (List.mem_cons_of_mem _ h2))
  refine ⟨hget, ?_⟩
  intro hk
  subst hk
  simp [rolesGuardCanActivate, hget]

/-- Witness for C8: subject 2 has no 'roles' entry in the store. -/
theorem c8_witness :
    metaGet wStore 2 "roles" = none
    ∧ rolesGuardCanActivate wStore 2 wReq = Except.ok true :=
  have h := c8_missing_metadata wStore 2 "roles" wReq (by decide)
  ⟨h.1, h.2 rfl⟩

/-- Applying interceptor maps distributes over list append. -/
theorem applyInOrder_append (l1 l2 : List Interceptor) (v : Value) :
    applyInOrder (l1 ++ l2) v = applyInOrder l2 (applyInOrder l1 v) := by
  induction l1 generalizing v with
  | nil => rfl
  | cons i is ih => simp [applyInOrder, ih]

/-- Post-interception applies the maps in the exact reverse of entry
order. -/
theorem postIntercept_reverse (l : List Interceptor) (v : Value) :
    postIntercept l v = applyInOrder l.reverse v := by
  induction l with
  | nil => rfl
  | cons i is ih =>
    simp [postIntercept, ih, applyInOrder_append, applyInOrder]

/-- Claim C9: on the success path the response-mapping interceptors
transform the candidate value in the exact reverse of their entry order
(last-entered transforms first), and the serialized client-visible body is
the fully transformed value, not the handler's original return value. -/
theorem c9_post_interceptors_reverse (cfg : PipelineCfg) (req : Req)
    (args : List Value) (v : Value)
    (hguards : evalGuards cfg.guards req = .allowed)
    (hshort : firstShort cfg.interceptors req = none)
    (hpipe : pipeParams req cfg.handler.params = .ok args)
    (hbody : cfg.handler.handlerBody args = .ok v) :
    execute cfg req
      = mkResponse cfg.handler (applyInOrder cfg.interceptors.reverse v)
    ∧ (execute cfg req).respBody
      = serializeBody (applyInOrder cfg.interceptors.reverse v)
    ∧ postIntercept cfg.interceptors v
      = applyInOrder cfg.interceptors.reverse v := by
  have he := execute_success cfg req args v hguards hshort hpipe hbody
  rw [postIntercept_reverse] at he
  exact ⟨he, by rw [he]; rfl, postIntercept_reverse _ _⟩

/-- Witness for C9: interceptors entered as A then B wrap the empty array
as A-around-B: the last-entered B transformed first. -/
theorem c9_witness :
    execute wCfgWrap wReq
      = mkResponse wHandler (.vObj [("A", .vObj [("B", .vArr [])])]) :=
  have h := c9_post_interceptors_reverse wCfgWrap wReq [] (.vArr [])
    rfl rfl rfl rfl
  by
    rw [h.1]
    rfl

/-- Claim C10: the bootstrap of src/src/main.ts performs, in this strict
order, application creation from AppModule, starting the HTTP listener on
port 3000, resolving PrismaService from the running application, and
awaiting its enableShutdownHooks — so shutdown-hook registration happens
only after the application is already listening. -/
theorem c10_bootstrap_order :
    bootstrap = [BootEvent.createApp "AppModule", BootEvent.listen 3000,
      BootEvent.appGet "PrismaService", BootEvent.enableHooks]
    ∧ List.indexOf (BootEvent.listen 3000) bootstrap
        < List.indexOf BootEvent.enableHooks bootstrap := by
  constructor
  · rfl
  · decide

/-! ### Provider-registry lemmas -/

/-- A cons on the cache preserves lookups of other tokens. -/
theorem lookupInst_cons_ne (c : List (Nat × Instance)) (t tok : Nat)
    (i : Instance) (h : t ≠ tok) :
    lookupInst ((tok, i) :: c) t = lookupInst c t := by
  simp only [lookupInst, if_neg (Ne.symm h)]

/-- Resolution never removes a memoized instance. -/
theorem resolveList_cache_mono (g : Registry) (fuel : Nat)
    (visiting : List Nat) (st : RegState) (toks : List Nat) :
    ∀ st' r, resolveList g fuel visiting st toks = (st', r) →
      ∀ t i, lookupInst st.cache t = some i →
        lookupInst st'.cache t = some i := by
  induction fuel, visiting, st, toks using resolveList.induct g with
  | case1 fuel visiting st =>
    intro st' r hres t i h
    simp only [resolveList] at hres
    cases hres
    exact h
  | case2 visiting st tok toks =>
    intro st' r hres t i h
    simp only [resolveList] at hres
    cases hres
    exact h
  | case3 fuel visiting st tok toks hv =>
    intro st' r hres t i h
    simp only [resolveList, if_pos hv] at hres
    cases hres
    exact h
  | case4 fuel visiting st tok toks hv inst hc st2 e hrec ih =>
    intro st' r hres t i h
    simp only [resolveList, if_neg hv, hc, hrec] at hres
    cases hres
    exact ih _ _ hrec t i h
  | case5 fuel visiting st tok toks hv inst hc st2 insts hrec ih =>
    intro st' r hres t i h
    simp only [resolveList, if_neg hv, hc, hrec] at hres
    cases hres
    exact ih _ _ hrec t i h
  | case6 fuel visiting st tok toks hv hc hd =>
    intro st' r hres t i h
    simp only [resolveList, if_neg hv, hc, hd] at hres
    cases hres
    exact h
  | case7 fuel visiting st tok toks hv hc d hd st2 e hrec ih =>
    intro st' r hres t i h
    simp only [resolveList, if_neg hv, hc, hd, hrec] at hres
    cases hres
    exact ih _ _ hrec t i h
  | case8 fuel visiting st tok toks hv hc d hd st2 insts hrec inst stC st3 e hrec2 ihd iht =>
    intro st' r hres t i h
    unfold stC inst at hrec2
    simp only [resolveList, if_neg hv, hc, hd, hrec, hrec2] at hres
    cases hres
    have h1 := ihd _ _ hrec t i h
    have htne : t ≠ tok := by
      intro heq
      rw [heq, hc] at h
      cases h
    have h2 : lookupInst ((tok, Instance.make tok insts) :: st2.cache) t
        = some i := by
      rw [lookupInst_cons_ne _ _ _ _ htne]
      exact h1
    exact iht _ _ hrec2 t i h2
  | case9 fuel visiting st tok toks hv hc d hd st2 insts hrec inst stC st3 insts2 hrec2 ihd iht =>
    intro st' r hres t i h
    unfold stC inst at hrec2
    simp only [resolveList, if_neg hv, hc, hd, hrec, hrec2] at hres
    cases hres
    have h1 := ihd _ _ hrec t i h
    have htne : t ≠ tok := by
      intro heq
      rw [heq, hc] at h
      cases h
    have h2 : lookupInst ((tok, Instance.make tok insts) :: st2.cache) t
        = some i := by
      rw [lookupInst_cons_ne _ _ _ _ htne]
      exact h1
    exact iht _ _ hrec2 t i h2

/-- Tokens on the visiting set are never cached or constructed by the
resolution walk below them. -/
theorem resolveList_visiting_untouched (g : Registry) (fuel : Nat)
    (visiting : List Nat) (st : RegState) (toks : List Nat) :
    ∀ st' r, resolveList g fuel visiting st toks = (st', r) →
      ∀ x ∈ visiting,
        lookupInst st'.cache x = lookupInst st.cache x
        ∧ st'.constructionLog.count x = st.constructionLog.count x := by
  induction fuel, visiting, st, toks using resolveList.induct g with
  | case1 fuel visiting st =>
    intro st' r hres x hx
    simp only [resolveList] at hres
    cases hres
    exact ⟨rfl, rfl⟩
  | case2 visiting st tok toks =>
    intro st' r hres x hx
    simp only [resolveList] at hres
    cases hres
    exact ⟨rfl, rfl⟩
  | case3 fuel visiting st tok toks hv =>
    intro st' r hres x hx
    simp only [resolveList, if_pos hv] at hres
    cases hres
    exact ⟨rfl, rfl⟩
  | case4 fuel visiting st tok toks hv inst hc st2 e hrec ih =>
    intro st' r hres x hx
    simp only [resolveList, if_neg hv, hc, hrec] at hres
    cases hres
    exact ih _ _ hrec x hx
  | case5 fuel visiting st tok toks hv inst hc st2 insts hrec ih =>
    intro st' r hres x hx
    simp only [resolveList, if_neg hv, hc, hrec] at hres
    cases hres
    exact ih _ _ hrec x hx
  | case6 fuel visiting st tok toks hv hc hd =>
    intro st' r hres x hx
    simp only [resolveList, if_neg hv, hc, hd] at hres
    cases hres
    exact ⟨rfl, rfl⟩
  | case7 fuel visiting st tok toks hv hc d hd st2 e hrec ih =>
    intro st' r hres x hx
    simp only [resolveList, if_neg hv, hc, hd, hrec] at hres
    cases hres
    exact ih _ _ hrec x (List.mem_cons_of_mem _ hx)
  | case8 fuel visiting st tok toks hv hc d hd st2 insts hrec inst stC st3 e hrec2 ihd iht =>
    intro st' r hres x hx
    unfold stC inst at hrec2 iht
    simp only [resolveList, if_neg hv, hc, hd, hrec, hrec2] at hres
    cases hres
    have hxt : x ≠ tok := fun heq => hv (heq ▸ hx)
    obtain ⟨hd1, hl1⟩ := ihd _ _ hrec x (List.mem_cons_of_mem _ hx)
    obtain ⟨hd2, hl2⟩ := iht _ _ hrec2 x hx
    constructor
    · rw [hd2, lookupInst_cons_ne _ _ _ _ hxt, hd1]
    · have hz : List.count x [tok] = 0 :=
        List.count_eq_zero_of_not_mem (by simp [hxt])
      rw [hl2, List.count_append, hz, hl1, Nat.add_zero]
  | case9 fuel visiting st tok toks hv hc d hd st2 insts hrec inst stC st3 insts2 hrec2 ihd iht =>
    intro st' r hres x hx
    unfold stC inst at hrec2 iht
    simp only [resolveList, if_neg hv, hc, hd, hrec, hrec2] at hres
    cases hres
    have hxt : x ≠ tok := fun heq => hv (heq ▸ hx)
    obtain ⟨hd1, hl1⟩ := ihd _ _ hrec x (List.mem_cons_of_mem _ hx)
    obtain ⟨hd2, hl2⟩ := iht _ _ hrec2 x hx
    constructor
    · rw [hd2, lookupInst_cons_ne _ _ _ _ hxt, hd1]
    · have hz : List.count x [tok] = 0 :=
        List.count_eq_zero_of_not_mem (by simp [hxt])
      rw [hl2, List.count_append, hz, hl1, Nat.add_zero]

/-- Pointwise relation on two lists yields a related partner for each
member of the first. -/
theorem forallTwo_exists_of_mem {α β : Type} {P : α → β → Prop}
    {l1 : List α} {l2 : List β} (h : List.Forall₂ P l1 l2) :
    ∀ b ∈ l1, ∃ i, P b i := by
  induction h with
  | nil => intro b hb; cases hb
  | cons hab htail ih =>
    intro b hb
    rcases List.mem_cons.mp hb with heq | hb2
    · subst heq; exact ⟨_, hab⟩
    · exact ih b hb2

/-- A successful resolution memoizes every requested token with exactly the
instance it returned. -/
theorem resolveList_ok_cached (g : Registry) (fuel : Nat)
    (visiting : List Nat) (st : RegState) (toks : List Nat) :
    ∀ st' insts, resolveList g fuel visiting st toks = (st', .ok insts) →
      List.Forall₂ (fun tk i => lookupInst st'.cache tk = some i)
        toks insts := by
  induction fuel, visiting, st, toks using resolveList.induct g with
  | case1 fuel visiting st =>
    intro st' insts hres
    simp only [resolveList] at hres
    cases hres
    exact .nil
  | case2 visiting st tok toks =>
    intro st' insts hres
    simp only [resolveList] at hres
    cases hres
  | case3 fuel visiting st tok toks hv =>
    intro st' insts hres
    simp only [resolveList, if_pos hv] at hres
    cases hres
  | case4 fuel visiting st tok toks hv inst hc st2 e hrec ih =>
    intro st' insts hres
    simp only [resolveList, if_neg hv, hc, hrec] at hres
    cases hres
  | case5 fuel visiting st tok toks hv inst hc st2 insts0 hrec ih =>
    intro st' insts hres
    simp only [resolveList, if_neg hv, hc, hrec] at hres
    cases hres
    refine .cons ?_ (ih _ _ hrec)
    exact resolveList_cache_mono g _ _ _ _ _ _ hrec tok inst hc
  | case6 fuel visiting st tok toks hv hc hd =>
    intro st' insts hres
    simp only [resolveList, if_neg hv, hc, hd] at hres
    cases hres
  | case7 fuel visiting st tok toks hv hc d hd st2 e hrec ih =>
    intro st' insts hres
    simp only [resolveList, if_neg hv, hc, hd, hrec] at hres
    cases hres
  | case8 fuel visiting st tok toks hv hc d hd st2 insts hrec inst stC st3 e hrec2 ihd iht =>
    intro st' insts2 hres
    unfold stC inst at hrec2
    simp only [resolveList, if_neg hv, hc, hd, hrec, hrec2] at hres
    cases hres
  | case9 fuel visiting st tok toks hv hc d hd st2 insts hrec inst stC st3 insts2 hrec2 ihd iht =>
    intro st' insts3 hres
    unfold stC inst at hrec2 iht
    simp only [resolveList, if_neg hv, hc, hd, hrec, hrec2] at hres
    cases hres
    refine .cons ?_ (iht _ _ hrec2)
    have hhead : lookupInst
        ((tok, Instance.make tok insts) :: st2.cache) tok
        = some (Instance.make tok insts) := by
      simp [lookupInst]
    exact resolveList_cache_mono g _ _ _ _ _ _ hrec2 tok _ hhead

/-- The descriptor a token resolves through is declared and carries that
token. -/
theorem findDescriptor_mem (g : Registry) (tok : Nat)
    (d : ProviderDescriptor) (h : findDescriptor g tok = some d) :
    d ∈ g ∧ d.token = tok := by
  unfold findDescriptor at h
  refine ⟨List.mem_of_find?_eq_some h, ?_⟩
  have h2 := List.find?_some h
  simpa using h2

/-- A token with a descriptor is among the declared tokens. -/
theorem findDescriptor_declared (g : Registry) (tok : Nat)
    (d : ProviderDescriptor) (h : findDescriptor g tok = some d) :
    tok ∈ declaredTokens g := by
  obtain ⟨hmem, htok⟩ := findDescriptor_mem g tok d h
  unfold declaredTokens
  rw [List.mem_dedup]
  exact List.mem_map.mpr ⟨d, hmem, htok⟩

/-- Memoizing a token whose declared dependencies are all memoized keeps the
cache dependency-closed. -/
theorem cacheClosed_extend (g : Registry) (st : RegState) (tok : Nat)
    (inst : Instance) (d : ProviderDescriptor) (L : List Nat)
    (hcl : CacheClosed g st) (hd : findDescriptor g tok = some d)
    (hdeps : ∀ b ∈ d.deps, (lookupInst st.cache b).isSome) :
    CacheClosed g
      { cache := (tok, inst) :: st.cache, constructionLog := L } := by
  intro a i ha b hedge
  have hsomeOld : (lookupInst st.cache b).isSome →
      (lookupInst ((tok, inst) :: st.cache) b).isSome = true := by
    intro hb
    by_cases hbt : b = tok
    · subst hbt; simp [lookupInst]
    · rw [show lookupInst ((tok, inst) :: st.cache) b
          = lookupInst st.cache b from lookupInst_cons_ne _ _ _ _ hbt]
      exact hb
  by_cases hat : a = tok
  · subst hat
    obtain ⟨d2, hd2, hb⟩ := hedge
    rw [hd] at hd2
    cases hd2
    exact hsomeOld (hdeps b hb)
  · have ha2 : lookupInst st.cache a = some i := by
      rw [show lookupInst ((tok, inst) :: st.cache) a
          = lookupInst st.cache a from lookupInst_cons_ne _ _ _ _ hat] at ha
      exact ha
    exact hsomeOld (hcl a i ha2 b hedge)

/-- From a memoized token, every dependency-reachable token is memoized in a
dependency-closed cache. -/
theorem reach_cached (g : Registry) (st : RegState)
    (hcl : CacheClosed g st) {a b : Nat} (hr : Reaches g a b) :
    ∀ i, lookupInst st.cache a = some i →
      (lookupInst st.cache b).isSome := by
  induction hr with
  | refl a => intro i h; rw [h]; rfl
  | head hedge htail ih =>
    intro i h
    have hsome := hcl _ _ h _ hedge
    obtain ⟨i2, hi2⟩ := Option.isSome_iff_exists.mp hsome
    exact ih i2 hi2

/-- Resolution preserves dependency-closure of the cache. -/
theorem resolveList_cacheClosed (g : Registry) (fuel : Nat)
    (visiting : List Nat) (st : RegState) (toks : List Nat) :
    ∀ st' r, resolveList g fuel visiting st toks = (st', r) →
      CacheClosed g st → CacheClosed g st' := by
  induction fuel, visiting, st, toks using resolveList.induct g with
  | case1 fuel visiting st =>
    intro st' r hres hcl
    simp only [resolveList] at hres
    cases hres
    exact hcl
  | case2 visiting st tok toks =>
    intro st' r hres hcl
    simp only [resolveList] at hres
    cases hres
    exact hcl
  | case3 fuel visiting st tok toks hv =>
    intro st' r hres hcl
    simp only [resolveList, if_pos hv] at hres
    cases hres
    exact hcl
  | case4 fuel visiting st tok toks hv inst hc st2 e hrec ih =>
    intro st' r hres hcl
    simp only [resolveList, if_neg hv, hc, hrec] at hres
    cases hres
    exact ih _ _ hrec hcl
  | case5 fuel visiting st tok toks hv inst hc st2 insts hrec ih =>
    intro st' r hres hcl
    simp only [resolveList, if_neg hv, hc, hrec] at hres
    cases hres
    exact ih _ _ hrec hcl
  | case6 fuel visiting st tok toks hv hc hd =>
    intro st' r hres hcl
    simp only [resolveList, if_neg hv, hc, hd] at hres
    cases hres
    exact hcl
  | case7 fuel visiting st tok toks hv hc d hd st2 e hrec ih =>
    intro st' r hres hcl
    simp only [resolveList, if_neg hv, hc, hd, hrec] at hres
    cases hres
    exact ih _ _ hrec hcl
  | case8 fuel visiting st tok toks hv hc d hd st2 insts hrec inst stC st3 e hrec2 ihd iht =>
    intro st' r hres hcl
    unfold stC inst at hrec2 iht
    simp only [resolveList, if_neg hv, hc, hd, hrec, hrec2] at hres
    cases hres
    have hcl2 := ihd _ _ hrec hcl
    have hdeps : ∀ b ∈ d.deps, (lookupInst st2.cache b).isSome := by
      intro b hb
      obtain ⟨i, hi⟩ := forallTwo_exists_of_mem
        (resolveList_ok_cached g _ _ _ _ _ _ hrec) b hb
      rw [hi]; rfl
    exact iht _ _ hrec2
      (cacheClosed_extend g st2 tok _ d _ hcl2 hd hdeps)
  | case9 fuel visiting st tok toks hv hc d hd st2 insts hrec inst stC st3 insts2 hrec2 ihd iht =>
    intro st' r hres hcl
    unfold stC inst at hrec2 iht
    simp only [resolveList, if_neg hv, hc, hd, hrec, hrec2] at hres
    cases hres
    have hcl2 := ihd _ _ hrec hcl
    have hdeps : ∀ b ∈ d.deps, (lookupInst st2.cache b).isSome := by
      intro b hb
      obtain ⟨i, hi⟩ := forallTwo_exists_of_mem
        (resolveList_ok_cached g _ _ _ _ _ _ hrec) b hb
      rw [hi]; rfl
    exact iht _ _ hrec2
      (cacheClosed_extend g st2 tok _ d _ hcl2 hd hdeps)

/-- A token list containing a token that reaches back into the visiting set
can never resolve successfully: the visiting-set walk detects it. -/
theorem resolveList_bad_not_ok (g : Registry) (fuel : Nat)
    (visiting : List Nat) (st : RegState) (toks : List Nat) :
    ∀ st' r, resolveList g fuel visiting st toks = (st', r) →
      CacheClosed g st →
      (∀ x ∈ visiting, lookupInst st.cache x = none) →
      (∃ tk ∈ toks, ∃ w ∈ visiting, Reaches g tk w) →
      ∀ insts, r ≠ .ok insts := by
  induction fuel, visiting, st, toks using resolveList.induct g with
  | case1 fuel visiting st =>
    intro st' r hres hcl hfresh hbad
    obtain ⟨tk, htk, _⟩ := hbad
    cases htk
  | case2 visiting st tok toks =>
    intro st' r hres hcl hfresh hbad
    simp only [resolveList] at hres
    cases hres
    intro insts h
    cases h
  | case3 fuel visiting st tok toks hv =>
    intro st' r hres hcl hfresh hbad
    simp only [resolveList, if_pos hv] at hres
    cases hres
    intro insts h
    cases h
  | case4 fuel visiting st tok toks hv inst hc st2 e hrec ih =>
    intro st' r hres hcl hfresh hbad
    simp only [resolveList, if_neg hv, hc, hrec] at hres
    cases hres
    intro insts h
    cases h
  | case5 fuel visiting st tok toks hv inst hc st2 insts0 hrec ih =>
    intro st' r hres hcl hfresh hbad
    simp only [resolveList, if_neg hv, hc, hrec] at hres
    cases hres
    intro insts2 heq
    obtain ⟨tk, htk, w, hw, hrw⟩ := hbad
    rcases List.mem_cons.mp htk with heqk | htk2
    · subst heqk
      have hsome := reach_cached g st hcl hrw inst hc
      rw [hfresh w hw] at hsome
      cases hsome
    · exact ih _ _ hrec hcl hfresh ⟨tk, htk2, w, hw, hrw⟩ insts0 rfl
  | case6 fuel visiting st tok toks hv hc hd =>
    intro st' r hres hcl hfresh hbad
    simp only [resolveList, if_neg hv, hc, hd] at hres
    cases hres
    intro insts h
    cases h
  | case7 fuel visiting st tok toks hv hc d hd st2 e hrec ih =>
    intro st' r hres hcl hfresh hbad
    simp only [resolveList, if_neg hv, hc, hd, hrec] at hres
    cases hres
    intro insts h
    cases h
  | case8 fuel visiting st tok toks hv hc d hd st2 insts hrec inst stC st3 e hrec2 ihd iht =>
    intro st' r hres hcl hfresh hbad
    unfold stC inst at hrec2 iht
    simp only [resolveList, if_neg hv, hc, hd, hrec, hrec2] at hres
    cases hres
    intro insts2 h
    cases h
  | case9 fuel visiting st tok toks hv hc d hd st2 insts hrec inst stC st3 insts2 hrec2 ihd iht =>
    intro st' r hres hcl hfresh hbad
    unfold stC inst at hrec2 iht
    simp only [resolveList, if_neg hv, hc, hd, hrec, hrec2] at hres
    cases hres
    intro insts3 heq
    have hfresh2 : ∀ x ∈ tok :: visiting, lookupInst st.cache x = none := by
      intro x hx
      rcases List.mem_cons.mp hx with heqx | hx2
      · subst heqx; exact hc
      · exact hfresh x hx2
    obtain ⟨tk, htk, w, hw, hrw⟩ := hbad
    rcases List.mem_cons.mp htk with heqk | htk2
    · subst heqk
      cases hrw with
      | refl => exact hv hw
      | head hedge htail =>
        obtain ⟨d2, hd2, hb⟩ := hedge
        rw [hd] at hd2
        cases hd2
        exact ihd _ _ hrec hcl hfresh2
          ⟨_, hb, w, List.mem_cons_of_mem _ hw, htail⟩ insts rfl
    · have hcl2 := resolveList_cacheClosed g _ _ _ _ _ _ hrec hcl
      have hdeps : ∀ b ∈ d.deps, (lookupInst st2.cache b).isSome := by
        intro b hb
        obtain ⟨i, hi⟩ := forallTwo_exists_of_mem
          (resolveList_ok_cached g _ _ _ _ _ _ hrec) b hb
        rw [hi]; rfl
      have hclC := cacheClosed_extend g st2 tok (Instance.make tok insts) d
        (st2.constructionLog ++ [tok]) hcl2 hd hdeps
      have hfreshC : ∀ x ∈ visiting,
          lookupInst ((tok, Instance.make tok insts) :: st2.cache) x
            = none := by
        intro x hx
        have hxt : x ≠ tok := fun heqx => hv (heqx ▸ hx)
        rw [lookupInst_cons_ne _ _ _ _ hxt]
        obtain ⟨hd1, _⟩ := resolveList_visiting_untouched g _ _ _ _ _ _ hrec
          x (List.mem_cons_of_mem _ hx)
        rw [hd1]
        exact hfresh x hx
      exact iht _ _ hrec2 hclC hfreshC ⟨tk, htk2, w, hw, hrw⟩ insts2 rfl

/-- No construction function of any token lying on a dependency cycle ever
runs during resolution. -/
theorem resolveList_no_cycle_constructed (g : Registry) (fuel : Nat)
    (visiting : List Nat) (st : RegState) (toks : List Nat) :
    ∀ st' r, resolveList g fuel visiting st toks = (st', r) →
      CacheClosed g st →
      (∀ x ∈ visiting, lookupInst st.cache x = none) →
      ∀ t, OnCycle g t →
        st'.constructionLog.count t = st.constructionLog.count t := by
  induction fuel, visiting, st, toks using resolveList.induct g with
  | case1 fuel visiting st =>
    intro st' r hres hcl hfresh t ht
    simp only [resolveList] at hres
    cases hres
    rfl
  | case2 visiting st tok toks =>
    intro st' r hres hcl hfresh t ht
    simp only [resolveList] at hres
    cases hres
    rfl
  | case3 fuel visiting st tok toks hv =>
    intro st' r hres hcl hfresh t ht
    simp only [resolveList, if_pos hv] at hres
    cases hres
    rfl
  | case4 fuel visiting st tok toks hv inst hc st2 e hrec ih =>
    intro st' r hres hcl hfresh t ht
    simp only [resolveList, if_neg hv, hc, hrec] at hres
    cases hres
    exact ih _ _ hrec hcl hfresh t ht
  | case5 fuel visiting st tok toks hv inst hc st2 insts hrec ih =>
    intro st' r hres hcl hfresh t ht
    simp only [resolveList, if_neg hv, hc, hrec] at hres
    cases hres
    exact ih _ _ hrec hcl hfresh t ht
  | case6 fuel visiting st tok toks hv hc hd =>
    intro st' r hres hcl hfresh t ht
    simp only [resolveList, if_neg hv, hc, hd] at hres
    cases hres
    rfl
  | case7 fuel visiting st tok toks hv hc d hd st2 e hrec ih =>
    intro st' r hres hcl hfresh t ht
    simp only [resolveList, if_neg hv, hc, hd, hrec] at hres
    cases hres
    refine ih _ _ hrec hcl ?_ t ht
    intro x hx
    rcases List.mem_cons.mp hx with heqx | hx2
    · subst heqx; exact hc
    · exact hfresh x hx2
  | case8 fuel visiting st tok toks hv hc d hd st2 insts hrec inst stC st3 e hrec2 ihd iht =>
    intro st' r hres hcl hfresh t ht
    unfold stC inst at hrec2 iht
    simp only [resolveList, if_neg hv, hc, hd, hrec, hrec2] at hres
    cases hres
    have hfresh2 : ∀ x ∈ tok :: visiting, lookupInst st.cache x = none := by
      intro x hx
      rcases List.mem_cons.mp hx with heqx | hx2
      · subst heqx; exact hc
      · exact hfresh x hx2
    have htok : t ≠ tok := by
      intro heqt
      subst heqt
      obtain ⟨d2, hd2, b, hb, hrb⟩ := ht
      rw [hd] at hd2
      cases hd2
      exact resolveList_bad_not_ok g _ _ _ _ _ _ hrec hcl hfresh2
        ⟨b, hb, t, List.mem_cons_self _ _, hrb⟩ insts rfl
    have hcl2 := resolveList_cacheClosed g _ _ _ _ _ _ hrec hcl
    have hdeps : ∀ b ∈ d.deps, (lookupInst st2.cache b).isSome := by
      intro b hb
      obtain ⟨i, hi⟩ := forallTwo_exists_of_mem
        (resolveList_ok_cached g _ _ _ _ _ _ hrec) b hb
      rw [hi]; rfl
    have hclC := cacheClosed_extend g st2 tok (Instance.make tok insts) d
      (st2.constructionLog ++ [tok]) hcl2 hd hdeps
    have hfreshC : ∀ x ∈ visiting,
        lookupInst ((tok, Instance.make tok insts) :: st2.cache) x
          = none := by
      intro x hx
      have hxt : x ≠ tok := fun heqx => hv (heqx ▸ hx)
      rw [lookupInst_cons_ne _ _ _ _ hxt]
      obtain ⟨hd1, _⟩ := resolveList_visiting_untouched g _ _ _ _ _ _ hrec
        x (List.mem_cons_of_mem _ hx)
      rw [hd1]
      exact hfresh x hx
    have h3 := iht _ _ hrec2 hclC hfreshC t ht
    have h1 := ihd _ _ hrec hcl hfresh2 t ht
    have hz : List.count t [tok] = 0 :=
      List.count_eq_zero_of_not_mem (by simp [htok])
    calc st3.constructionLog.count t
        = (st2.constructionLog ++ [tok]).count t := h3
      _ = st2.constructionLog.count t := by
          rw [List.count_append, hz, Nat.add_zero]
      _ = st.constructionLog.count t := h1
  | case9 fuel visiting st tok toks hv hc d hd st2 insts hrec inst stC st3 insts2 hrec2 ihd iht =>
    intro st' r hres hcl hfresh t ht
    unfold stC inst at hrec2 iht
    simp only [resolveList, if_neg hv, hc, hd, hrec, hrec2] at hres
    cases hres
    have hfresh2 : ∀ x ∈ tok :: visiting, lookupInst st.cache x = none := by
      intro x hx
      rcases List.mem_cons.mp hx with heqx | hx2
      · subst heqx; exact hc
      · exact hfresh x hx2
    have htok : t ≠ tok := by
      intro heqt
      subst heqt
      obtain ⟨d2, hd2, b, hb, hrb⟩ := ht
      rw [hd] at hd2
      cases hd2
      exact resolveList_bad_not_ok g _ _ _ _ _ _ hrec hcl hfresh2
        ⟨b, hb, t, List.mem_cons_self _ _, hrb⟩ insts rfl
    have hcl2 := resolveList_cacheClosed g _ _ _ _ _ _ hrec hcl
    have hdeps : ∀ b ∈ d.deps, (lookupInst st2.cache b).isSome := by
      intro b hb
      obtain ⟨i, hi⟩ := forallTwo_exists_of_mem
        (resolveList_ok_cached g _ _ _ _ _ _ hrec) b hb
      rw [hi]; rfl
    have hclC := cacheClosed_extend g st2 tok (Instance.make tok insts) d
      (st2.constructionLog ++ [tok]) hcl2 hd hdeps
    have hfreshC : ∀ x ∈ visiting,
        lookupInst ((tok, Instance.make tok insts) :: st2.cache) x
          = none := by
      intro x hx
      have hxt : x ≠ tok := fun heqx => hv (heqx ▸ hx)
      rw [lookupInst_cons_ne _ _ _ _ hxt]
      obtain ⟨hd1, _⟩ := resolveList_visiting_untouched g _ _ _ _ _ _ hrec
        x (List.mem_cons_of_mem _ hx)
      rw [hd1]
      exact hfresh x hx
    have h3 := iht _ _ hrec2 hclC hfreshC t ht
    have h1 := ihd _ _ hrec hcl hfresh2 t ht
    have hz : List.count t [tok] = 0 :=
      List.count_eq_zero_of_not_mem (by simp [htok])
    calc st3.constructionLog.count t
        = (st2.constructionLog ++ [tok]).count t := h3
      _ = st2.constructionLog.count t := by
          rw [List.count_append, hz, Nat.add_zero]
      _ = st.constructionLog.count t := h1

/-- Filtering with a stronger predicate keeps at most as many elements. -/
theorem length_filter_le_of_imp {α : Type} (p q : α → Bool)
    (h : ∀ a, p a = true → q a = true) (l : List α) :
    (l.filter p).length ≤ (l.filter q).length := by
  induction l with
  | nil => simp
  | cons a rest ih =>
    rw [List.filter_cons, List.filter_cons]
    by_cases hp : p a = true
    · rw [if_pos hp, if_pos (h a hp)]
      simpa using ih
    · rw [if_neg hp]
      by_cases hq : q a = true
      · rw [if_pos hq]
        exact le_trans ih (by simp)
      · rw [if_neg hq]
        exact ih

/-- Pushing a declared, not-yet-visited token onto the visiting set strictly
decreases the count of available declared tokens. -/
theorem availCount_cons (g : Registry) (visiting : List Nat) (tok : Nat)
    (hdecl : tok ∈ declaredTokens g) (hv : tok ∉ visiting) :
    availCount g (tok :: visiting) + 1 ≤ availCount g visiting := by
  unfold availCount
  have himp : ∀ t : Nat, decide (t ∉ tok :: visiting) = true →
      decide (t ∉ visiting) = true := by
    intro t ht
    rw [decide_eq_true_iff] at ht ⊢
    exact fun hmem => ht (List.mem_cons_of_mem _ hmem)
  have hgen : ∀ l : List Nat, tok ∈ l →
      (l.filter (fun t => decide (t ∉ tok :: visiting))).length + 1
        ≤ (l.filter (fun t => decide (t ∉ visiting))).length := by
    intro l hl
    induction l with
    | nil => cases hl
    | cons a rest ih =>
      rw [List.filter_cons, List.filter_cons]
      by_cases hat : a = tok
      · subst hat
        rw [if_neg (by simp), if_pos (by simpa using hv)]
        have hm := length_filter_le_of_imp _ _ himp rest
        simp only [List.length_cons]
        omega
      · have hiff : (decide (a ∉ tok :: visiting))
            = (decide (a ∉ visiting)) := by
          simp [List.mem_cons, hat]
        rw [hiff]
        have htr : tok ∈ rest := by
          rcases List.mem_cons.mp hl with heq | hmem
          · exact absurd heq.symm hat
          · exact hmem
        by_cases hva : decide (a ∉ visiting) = true
        · rw [if_pos hva, if_pos hva]
          have := ih htr
          simp only [List.length_cons]
          omega
        · rw [if_neg hva, if_neg hva]
          exact ih htr
  exact hgen _ hdecl

/-- Every declared dependency list is bounded by `maxDeps`. -/
theorem deps_le_maxDeps (g : Registry) (d : ProviderDescriptor)
    (hd : d ∈ g) : d.deps.length ≤ maxDeps g := by
  unfold maxDeps
  induction g with
  | nil => cases hd
  | cons d2 rest ih =>
    rcases List.mem_cons.mp hd with heq | hmem
    · subst heq
      simp only [List.map_cons, List.foldr_cons]
      exact Nat.le_max_left _ _
    · simp only [List.map_cons, List.foldr_cons]
      exact le_trans (ih hmem) (Nat.le_max_right _ _)

/-- Over a closed registry, resolution of declared tokens never reports an
unresolved dependency. -/
theorem resolveList_no_unresolved (g : Registry) (fuel : Nat)
    (visiting : List Nat) (st : RegState) (toks : List Nat) :
    ∀ st' r, resolveList g fuel visiting st toks = (st', r) →
      ClosedRegistry g →
      (∀ tk ∈ toks, (findDescriptor g tk).isSome) →
      r ≠ .error .unresolvedDependency := by
  induction fuel, visiting, st, toks using resolveList.induct g with
  | case1 fuel visiting st =>
    intro st' r hres hcr hdecl
    simp only [resolveList] at hres
    cases hres
    intro h
    simp at h
  | case2 visiting st tok toks =>
    intro st' r hres hcr hdecl
    simp only [resolveList] at hres
    cases hres
    intro h
    simp at h
  | case3 fuel visiting st tok toks hv =>
    intro st' r hres hcr hdecl
    simp only [resolveList, if_pos hv] at hres
    cases hres
    intro h
    simp at h
  | case4 fuel visiting st tok toks hv inst hc st2 e hrec ih =>
    intro st' r hres hcr hdecl
    simp only [resolveList, if_neg hv, hc, hrec] at hres
    cases hres
    exact ih _ _ hrec hcr
      (fun tk htk => hdecl tk (List.mem_cons_of_mem _ htk))
  | case5 fuel visiting st tok toks hv inst hc st2 insts hrec ih =>
    intro st' r hres hcr hdecl
    simp only [resolveList, if_neg hv, hc, hrec] at hres
    cases hres
    intro h
    simp at h
  | case6 fuel visiting st tok toks hv hc hd =>
    intro st' r hres hcr hdecl
    have h1 := hdecl tok (List.mem_cons_self _ _)
    rw [hd] at h1
    simp at h1
  | case7 fuel visiting st tok toks hv hc d hd st2 e hrec ih =>
    intro st' r hres hcr hdecl
    simp only [resolveList, if_neg hv, hc, hd, hrec] at hres
    cases hres
    obtain ⟨hdm, _⟩ := findDescriptor_mem g tok d hd
    exact ih _ _ hrec hcr (fun tk htk => hcr d hdm tk htk)
  | case8 fuel visiting st tok toks hv hc d hd st2 insts hrec inst stC st3 e hrec2 ihd iht =>
    intro st' r hres hcr hdecl
    unfold stC inst at hrec2 iht
    simp only [resolveList, if_neg hv, hc, hd, hrec, hrec2] at hres
    cases hres
    exact iht _ _ hrec2 hcr
      (fun tk htk => hdecl tk (List.mem_cons_of_mem _ htk))
  | case9 fuel visiting st tok toks hv hc d hd st2 insts hrec inst stC st3 insts2 hrec2 ihd iht =>
    intro st' r hres hcr hdecl
    unfold stC inst at hrec2 iht
    simp only [resolveList, if_neg hv, hc, hd, hrec, hrec2] at hres
    cases hres
    intro h
    simp at h

/-- `fuelFor`-style bounds are sufficient: resolution never runs out of
fuel when the fuel dominates the token count times the dependency width. -/
theorem resolveList_no_out_of_fuel (g : Registry) (fuel : Nat)
    (visiting : List Nat) (st : RegState) (toks : List Nat) :
    ∀ st' r, resolveList g fuel visiting st toks = (st', r) →
      toks.length + availCount g visiting * (maxDeps g + 1) ≤ fuel →
      r ≠ .error .outOfFuel := by
  induction fuel, visiting, st, toks using resolveList.induct g with
  | case1 fuel visiting st =>
    intro st' r hres hfuel
    simp only [resolveList] at hres
    cases hres
    intro h
    simp at h
  | case2 visiting st tok toks =>
    intro st' r hres hfuel
    rw [List.length_cons] at hfuel
    omega
  | case3 fuel visiting st tok toks hv =>
    intro st' r hres hfuel
    simp only [resolveList, if_pos hv] at hres
    cases hres
    intro h
    simp at h
  | case4 fuel visiting st tok toks hv inst hc st2 e hrec ih =>
    intro st' r hres hfuel
    simp only [resolveList, if_neg hv, hc, hrec] at hres
    cases hres
    refine ih _ _ hrec ?_
    rw [List.length_cons] at hfuel
    omega
  | case5 fuel visiting st tok toks hv inst hc st2 insts hrec ih =>
    intro st' r hres hfuel
    simp only [resolveList, if_neg hv, hc, hrec] at hres
    cases hres
    intro h
    simp at h
  | case6 fuel visiting st tok toks hv hc hd =>
    intro st' r hres hfuel
    simp only [resolveList, if_neg hv, hc, hd] at hres
    cases hres
    intro h
    simp at h
  | case7 fuel visiting st tok toks hv hc d hd st2 e hrec ih =>
    intro st' r hres hfuel
    simp only [resolveList, if_neg hv, hc, hd, hrec] at hres
    cases hres
    refine ih _ _ hrec ?_
    have hB := availCount_cons g visiting tok
      (findDescriptor_declared g tok d hd) hv
    have hdl := deps_le_maxDeps g d (findDescriptor_mem g tok d hd).1
    rw [List.length_cons] at hfuel
    have h1 : (availCount g (tok :: visiting) + 1) * (maxDeps g + 1)
        ≤ availCount g visiting * (maxDeps g + 1) :=
      Nat.mul_le_mul_right _ hB
    have h2 : (availCount g (tok :: visiting) + 1) * (maxDeps g + 1)
        = availCount g (tok :: visiting) * (maxDeps g + 1)
          + (maxDeps g + 1) := by ring
    omega
  | case8 fuel visiting st tok toks hv hc d hd st2 insts hrec inst stC st3 e hrec2 ihd iht =>
    intro st' r hres hfuel
    unfold stC inst at hrec2 iht
    simp only [resolveList, if_neg hv, hc, hd, hrec, hrec2] at hres
    cases hres
    refine iht _ _ hrec2 ?_
    rw [List.length_cons] at hfuel
    omega
  | case9 fuel visiting st tok toks hv hc d hd st2 insts hrec inst stC st3 insts2 hrec2 ihd iht =>
    intro st' r hres hfuel
    unfold stC inst at hrec2 iht
    simp only [resolveList, if_neg hv, hc, hd, hrec, hrec2] at hres
    cases hres
    intro h
    simp at h

/-- Resolution preserves the construction-once invariant for singleton
providers. -/
theorem resolveList_goodState (g : Registry) (fuel : Nat)
    (visiting : List Nat) (st : RegState) (toks : List Nat) :
    ∀ st' r, resolveList g fuel visiting st toks = (st', r) →
      GoodState g st → GoodState g st' := by
  induction fuel, visiting, st, toks using resolveList.induct g with
  | case1 fuel visiting st =>
    intro st' r hres hgs
    simp only [resolveList] at hres
    cases hres
    exact hgs
  | case2 visiting st tok toks =>
    intro st' r hres hgs
    simp only [resolveList] at hres
    cases hres
    exact hgs
  | case3 fuel visiting st tok toks hv =>
    intro st' r hres hgs
    simp only [resolveList, if_pos hv] at hres
    cases hres
    exact hgs
  | case4 fuel visiting st tok toks hv inst hc st2 e hrec ih =>
    intro st' r hres hgs
    simp only [resolveList, if_neg hv, hc, hrec] at hres
    cases hres
    exact ih _ _ hrec hgs
  | case5 fuel visiting st tok toks hv inst hc st2 insts hrec ih =>
    intro st' r hres hgs
    simp only [resolveList, if_neg hv, hc, hrec] at hres
    cases hres
    exact ih _ _ hrec hgs
  | case6 fuel visiting st tok toks hv hc hd =>
    intro st' r hres hgs
    simp only [resolveList, if_neg hv, hc, hd] at hres
    cases hres
    exact hgs
  | case7 fuel visiting st tok toks hv hc d hd st2 e hrec ih =>
    intro st' r hres hgs
    simp only [resolveList, if_neg hv, hc, hd, hrec] at hres
    cases hres
    exact ih _ _ hrec hgs
  | case8 fuel visiting st tok toks hv hc d hd st2 insts hrec inst stC st3 e hrec2 ihd iht =>
    intro st' r hres hgs
    unfold stC inst at hrec2 iht
    simp only [resolveList, if_neg hv, hc, hd, hrec, hrec2] at hres
    cases hres
    have hgs2 := ihd _ _ hrec hgs
    have htokNone : lookupInst st2.cache tok = none := by
      obtain ⟨hd1, _⟩ := resolveList_visiting_untouched g _ _ _ _ _ _ hrec
        tok (List.mem_cons_self _ _)
      rw [hd1]
      exact hc
    refine iht _ _ hrec2 ?_
    intro d' hd' hlt
    dsimp only
    by_cases hdt : d'.token = tok
    · rw [hdt]
      have hcnt0 : st2.constructionLog.count tok = 0 := by
        have hbase := hgs2 d' hd' hlt
        rw [hdt, htokNone] at hbase
        simpa using hbase
      have hhead : lookupInst
          ((tok, Instance.make tok insts) :: st2.cache) tok
          = some (Instance.make tok insts) := by
        simp [lookupInst]
      rw [List.count_append, hcnt0, hhead]
      simp
    · have hz : List.count d'.token [tok] = 0 :=
        List.count_eq_zero_of_not_mem (by simp [hdt])
      rw [lookupInst_cons_ne _ _ _ _ hdt, List.count_append, hz,
        Nat.add_zero]
      exact hgs2 d' hd' hlt
  | case9 fuel visiting st tok toks hv hc d hd st2 insts hrec inst stC st3 insts2 hrec2 ihd iht =>
    intro st' r hres hgs
    unfold stC inst at hrec2 iht
    simp only [resolveList, if_neg hv, hc, hd, hrec, hrec2] at hres
    cases hres
    have hgs2 := ihd _ _ hrec hgs
    have htokNone : lookupInst st2.cache tok = none := by
      obtain ⟨hd1, _⟩ := resolveList_visiting_untouched g _ _ _ _ _ _ hrec
        tok (List.mem_cons_self _ _)
      rw [hd1]
      exact hc
    refine iht _ _ hrec2 ?_
    intro d' hd' hlt
    dsimp only
    by_cases hdt : d'.token = tok
    · rw [hdt]
      have hcnt0 : st2.constructionLog.count tok = 0 := by
        have hbase := hgs2 d' hd' hlt
        rw [hdt, htokNone] at hbase
        simpa using hbase
      have hhead : lookupInst
          ((tok, Instance.make tok insts) :: st2.cache) tok
          = some (Instance.make tok insts) := by
        simp [lookupInst]
      rw [List.count_append, hcnt0, hhead]
      simp
    · have hz : List.count d'.token [tok] = 0 :=
        List.count_eq_zero_of_not_mem (by simp [hdt])
      rw [lookupInst_cons_ne _ _ _ _ hdt, List.count_append, hz,
        Nat.add_zero]
      exact hgs2 d' hd' hlt

/-- Filtering the cache down to singleton entries preserves lookups of
singleton tokens. -/
theorem lookupInst_filter_singleton (g : Registry)
    (c : List (Nat × Instance)) (tok : Nat)
    (hsing : lifetimeOf g tok = some .singleton) :
    lookupInst
      (c.filter (fun p => lifetimeOf g p.1 = some .singleton)) tok
      = lookupInst c tok := by
  induction c with
  | nil => rfl
  | cons p rest ih =>
    obtain ⟨t, i⟩ := p
    by_cases htt : t = tok
    · subst htt
      rw [List.filter_cons, if_pos (by simpa using hsing)]
      simp [lookupInst]
    · by_cases hp : lifetimeOf g t = some Lifetime.singleton
      · rw [List.filter_cons, if_pos (by simpa using hp)]
        rw [show lookupInst ((t, i) :: rest) tok = lookupInst rest tok from
          by simp [lookupInst, htt]]
        rw [show lookupInst
            ((t, i) :: rest.filter (fun p => lifetimeOf g p.1
              = some Lifetime.singleton)) tok
            = lookupInst (rest.filter (fun p => lifetimeOf g p.1
              = some Lifetime.singleton)) tok from
          by simp [lookupInst, htt]]
        exact ih
      · rw [List.filter_cons, if_neg (by simpa using hp)]
        rw [show lookupInst ((t, i) :: rest) tok = lookupInst rest tok from
          by simp [lookupInst, htt]]
        exact ih

/-- Discarding the per-request cache of a fresh RequestContext preserves the
construction-once invariant. -/
theorem goodState_newRequest (g : Registry) (st : RegState)
    (h : GoodState g st) : GoodState g (newRequest g st) := by
  intro d hd hlt
  unfold newRequest
  dsimp only
  rw [lookupInst_filter_singleton g st.cache d.token hlt]
  exact h d hd hlt

/-- Claim C4: each singleton provider's construction function runs exactly
once.  Starting from any state satisfying the construction-once invariant,
resolution preserves it (so a memoized singleton token has exactly one
construction-log entry and an unmemoized one has none), a fresh
RequestContext preserves it, a successful resolve memoizes its token with
the returned instance, and resolving an already memoized token returns that
same instance with no state change — no construction function runs. -/
theorem c4_singleton_memoized (g : Registry) (st : RegState) (tok : Nat)
    (h : GoodState g st) :
    GoodState g (resolve g st tok).1
    ∧ GoodState g (newRequest g st)
    ∧ (∀ i, (resolve g st tok).2 = .ok i →
        lookupInst (resolve g st tok).1.cache tok = some i)
    ∧ (∀ i, lookupInst st.cache tok = some i →
        resolve g st tok = (st, .ok i)) := by
  refine ⟨?_, goodState_newRequest g st h, ?_, ?_⟩
  · rcases hres : resolveList g (fuelFor g) [] st [tok] with ⟨st1, r⟩
    have hGS := resolveList_goodState g _ _ _ _ _ _ hres h
    unfold resolve
    rw [hres]
    cases r with
    | error e => exact hGS
    | ok insts =>
      cases insts with
      | nil => exact hGS
      | cons i rest => exact hGS
  · intro i hok
    rcases hres : resolveList g (fuelFor g) [] st [tok] with ⟨st1, r⟩
    unfold resolve at hok ⊢
    rw [hres] at hok ⊢
    cases r with
    | error e => simp at hok
    | ok insts =>
      cases insts with
      | nil => simp at hok
      | cons i0 rest =>
        have hf := resolveList_ok_cached g _ _ _ _ _ _ hres
        cases hf with
        | cons hhead htail =>
          simp only at hok
          cases hok
          exact hhead
  · intro i hcache
    unfold resolve
    have hstep : resolveList g (fuelFor g) [] st [tok] = (st, .ok [i]) := by
      unfold fuelFor
      simp [resolveList, hcache]
    rw [hstep]

/-- Witness for C4: after the first resolution of token 0, the invariant
holds, and a second resolve returns the memoized instance unchanged. -/
theorem c4_witness :
    GoodState wRegistrySingle wStateAfter
    ∧ resolve wRegistrySingle wStateAfter 0
        = (wStateAfter, .ok wInstance) := by
  have hgs : GoodState wRegistrySingle wStateAfter := by
    unfold GoodState
    decide
  exact ⟨hgs,
    (c4_singleton_memoized wRegistrySingle wStateAfter 0 hgs).2.2.2
      wInstance rfl⟩

/-- Claim C5: over a closed provider graph, resolving a token that lies on
a dependency cycle fails with DependencyCycleError — detected by the
visiting-set walk — and no construction function of any token on a cycle
runs before the failure. -/
theorem c5_cycle_detected (g : Registry) (tok : Nat)
    (hclosed : ClosedRegistry g) (hcyc : OnCycle g tok) :
    (resolve g emptyRegState tok).2 = .error .dependencyCycle
    ∧ ∀ t, OnCycle g t →
        (resolve g emptyRegState tok).1.constructionLog.count t = 0 := by
  obtain ⟨d, hd, b, hb, hrb⟩ := hcyc
  have hfreshTok : ∀ x ∈ [tok],
      lookupInst emptyRegState.cache x = none := by
    intro x hx
    rfl
  have hclE : CacheClosed g emptyRegState := by
    intro a i ha b2 hedge
    simp [emptyRegState, lookupInst] at ha
  rcases hdep : resolveList g
      ((declaredTokens g).length * (maxDeps g + 1)) [tok] emptyRegState
      d.deps with ⟨st2, rdep⟩
  cases rdep with
  | ok insts =>
    exact absurd rfl (resolveList_bad_not_ok g _ _ _ _ _ _ hdep hclE
      hfreshTok ⟨b, hb, tok, List.mem_cons_self _ _, hrb⟩ insts)
  | error e =>
    have hres : resolveList g (fuelFor g) [] emptyRegState [tok]
        = (st2, .error e) := by
      have hdep2 : resolveList g
          ((declaredTokens g).length * (maxDeps g + 1)) [tok]
          { cache := [], constructionLog := [] } d.deps
          = (st2, .error e) := hdep
      simp [fuelFor, resolveList, emptyRegState, lookupInst, hd, hdep2]
    have hne1 : e ≠ .unresolvedDependency := by
      have hdeps_decl : ∀ tk ∈ d.deps, (findDescriptor g tk).isSome := by
        intro tk htk
        exact hclosed d (findDescriptor_mem g tok d hd).1 tk htk
      have hnot := resolveList_no_unresolved g _ _ _ _ _ _ hdep hclosed
        hdeps_decl
      intro heq
      rw [heq] at hnot
      exact hnot rfl
    have hne2 : e ≠ .outOfFuel := by
      have hB := availCount_cons g [] tok
        (findDescriptor_declared g tok d hd) (by simp)
      have hA : availCount g [] = (declaredTokens g).length := by
        simp [availCount]
      have hdl := deps_le_maxDeps g d (findDescriptor_mem g tok d hd).1
      have harith : d.deps.length
          + availCount g [tok] * (maxDeps g + 1)
          ≤ (declaredTokens g).length * (maxDeps g + 1) := by
        have h1 : (availCount g [tok] + 1) * (maxDeps g + 1)
            ≤ availCount g [] * (maxDeps g + 1) :=
          Nat.mul_le_mul_right _ hB
        have h2 : (availCount g [tok] + 1) * (maxDeps g + 1)
            = availCount g [tok] * (maxDeps g + 1) + (maxDeps g + 1) := by
          ring
        rw [hA] at h1
        omega
      have hnot := resolveList_no_out_of_fuel g _ _ _ _ _ _ hdep harith
      intro heq
      rw [heq] at hnot
      exact hnot rfl
    have heq : e = .dependencyCycle := by
      cases e
      · exact absurd rfl hne1
      · rfl
      · exact absurd rfl hne2
    subst heq
    constructor
    · unfold resolve
      rw [hres]
    · intro t ht
      unfold resolve
      rw [hres]
      dsimp only
      have hcount := resolveList_no_cycle_constructed g _ _ _ _ _ _ hdep
        hclE hfreshTok t ht
      rw [hcount]
      rfl

/-- Witness for C5: two singleton providers depending on each other; the
resolve of token 0 reports the cycle and constructs nothing. -/
theorem c5_witness :
    (resolve wRegistryCycle emptyRegState 0).2
      = .error .dependencyCycle
    ∧ (resolve wRegistryCycle emptyRegState 0).1.constructionLog.count 0
      = 0 := by
  have hclosed : ClosedRegistry wRegistryCycle := by
    unfold ClosedRegistry
    decide
  have hcyc : OnCycle wRegistryCycle 0 := by
    refine ⟨{ token := 0, deps := [1], lifetime := .singleton },
      by decide, 1, by decide, ?_⟩
    exact Reaches.head
      ⟨{ token := 1, deps := [0], lifetime := .singleton },
        by decide, by decide⟩
      (Reaches.refl 0)
  have h := c5_cycle_detected wRegistryCycle 0 hclosed hcyc
  exact ⟨h.1, h.2 0 hcyc⟩

end TTRL
